import Mathlib

/-!
Verification development for the curly.hpp request lifecycle engine
(sources/curly.hpp/curly.cpp, headers/curly.hpp/curly.hpp).

Strings from the C++ side are modelled as lists of characters (`Str`),
machine integers as `Nat`/`Int`, `float` progress values as `ℚ` (the clamp
bounds 0 and 1 and the constant assignments are exact in both models), and
fallible operations return `Option` results or a `Bool` success flag.
-/

namespace Curly

abbrev Str := List Char

/-- The subset of CURLcode values the engine inspects (curl.h numeric values). -/
def CURLE_FAILED_INIT : Nat := 2
def CURLE_WRITE_ERROR : Nat := 23
def CURLE_READ_ERROR : Nat := 26
def CURLE_OPERATION_TIMEDOUT : Nat := 28
def CURLE_ABORTED_BY_CALLBACK : Nat := 42

/-- Embeds `enum class req_status` from curly.hpp. -/
inductive req_status where
  | done
  | empty
  | failed
  | timeout
  | pending
  | cancelled
deriving DecidableEq, Repr

/-- The observable parts of `class response` built by `internal_state::done`:
final effective URL, numeric HTTP code (`http_code_t` is `uint16_t`, hence the
`% 65536` at the construction site), response headers and body content.
The moved-in stream adapters carry no observable data and are omitted. -/
structure response where
  last_url : Str
  http_code : Nat
  headers : List (Str × Str)
  content : Str
deriving DecidableEq, Repr

/-- The fields of `request::internal_state` that the verified claims observe.
`callback_exception_` (a `std::exception_ptr`) is modelled as an optional
exception message; `response_` is `none` until `done()` succeeds (the C++
default-constructed `response` is never returned because `take` guards on
`req_status::done`, which is set only after a response is built).
Transport-handle fields, timestamps and byte counters are not observed by
any claim and are omitted. -/
structure internal_state where
  status_ : req_status
  error_ : Str
  error_buffer_ : Str
  progress_ : ℚ
  callbacked_ : Bool
  callback_exception_ : Option String
  response_ : Option response
  response_headers_ : List (Str × Str)
  response_content_ : Str
deriving DecidableEq

/-- A freshly constructed `internal_state`: `status_{req_status::pending}`,
`error_{"Unknown error"}`, empty error buffer, `progress_{0.f}`,
`callbacked_{false}`, no callback exception, default response slot,
empty accumulated headers and body. -/
def init_state : internal_state where
  status_ := .pending
  error_ := "Unknown error".data
  error_buffer_ := []
  progress_ := 0
  callbacked_ := false
  callback_exception_ := none
  response_ := none
  response_headers_ := []
  response_content_ := []

/-- Embeds `internal_state::done()`.  The curl getinfo observables are inputs:
`last_url` is `none` when `curl_easy_getinfo(CURLINFO_EFFECTIVE_URL)` fails or
yields a null pointer; `http_code = 0` covers both a failing
`curl_easy_getinfo(CURLINFO_RESPONSE_CODE)` and a reported code of zero
(the C++ checks `CURLE_OK != getinfo || !http_code` in both places);
`build_throws` is true when constructing the response object throws.
Returns (new state, return value, whether `cvar_.notify_all()` ran). -/
def internal_state.done (st : internal_state) (last_url : Option Str)
    (http_code : Nat) (build_throws : Bool) : internal_state × Bool × Bool :=
  if st.status_ ≠ .pending then (st, false, false)
  else
    match last_url with
    | none => ({st with status_ := .failed}, false, true)
    | some url =>
      if http_code = 0 then ({st with status_ := .failed}, false, true)
      else if build_throws then ({st with status_ := .failed}, false, true)
      else
        ({st with
            response_ := some { last_url := url, http_code := http_code % 65536,
                                headers := st.response_headers_,
                                content := st.response_content_ }
            response_headers_ := []
            response_content_ := []
            progress_ := 1
            status_ := .done
            error_ := [] }, true, true)

/-- Embeds `internal_state::fail(CURLcode err)`.  The `catch` arm around the message
assignment guards only against allocation failure of `std::string::assign`,
which has no counterpart for Lean lists and is omitted.
Returns (new state, return value); `cvar_.notify_all()` runs exactly when the
return value is true. -/
def internal_state.fail (st : internal_state) (err : Nat) : internal_state × Bool :=
  if st.status_ ≠ .pending then (st, false)
  else if err = CURLE_OPERATION_TIMEDOUT then
    ({st with status_ := .timeout, error_ := "Operation timeout".data}, true)
  else if err = CURLE_READ_ERROR ∨ err = CURLE_WRITE_ERROR ∨ err = CURLE_ABORTED_BY_CALLBACK then
    ({st with status_ := .cancelled, error_ := "Callback aborted".data}, true)
  else
    ({st with
        status_ := .failed
        error_ := (if st.error_buffer_ ≠ [] then st.error_buffer_
                   else "Unknown error".data)}, true)

/-- Embeds `internal_state::cancel()` (same allocation-failure remark as `fail`). -/
def internal_state.cancel (st : internal_state) : internal_state × Bool :=
  if st.status_ ≠ .pending then (st, false)
  else ({st with status_ := .cancelled, error_ := "Operation cancelled".data}, true)

/-- Embeds `internal_state::take()`.  The C++ call blocks on the condition variable
while the status is `pending`; a call observed while still pending is modelled
as not completing (no state change, no response).  Once unblocked it throws
unless the status is `done`; on success the status becomes `empty` and the
response is moved out of the state. -/
def internal_state.take (st : internal_state) : internal_state × Option response :=
  if st.status_ = .pending then (st, none)
  else if st.status_ ≠ .done then (st, none)
  else ({st with status_ := .empty, response_ := none}, st.response_)

/-- Embeds `default_progressor::update`: `(dnow+unow)/(dtotal+utotal)` when the
denominator is positive, else 0, clamped by
`std::min(std::max(progress_d, 0.f), 1.f)`. -/
def default_progressor_update (dnow dtotal unow utotal : Nat) : ℚ :=
  let now_d : ℚ := (dnow : ℚ) + (unow : ℚ)
  let total_d : ℚ := (dtotal : ℚ) + (utotal : ℚ)
  let progress_d : ℚ := if total_d > 0 then now_d / total_d else 0
  min (max progress_d 0) 1

/-- Embeds `internal_state::progress_callback`: clamps each negative `curl_off_t`
counter to 0, forwards the four counters to the progressor's `update`, stores
the returned value in `progress_` unmodified, and returns 0 to the transport.
`update` is the (possibly user-supplied) progressor, passed as a function;
the `catch` arm (returning 1 when `update` throws, without touching
`progress_`) stores nothing and is not observable by the progress claims. -/
def internal_state.progress_callback (st : internal_state)
    (update : Nat → Nat → Nat → Nat → ℚ)
    (dlnow dltotal ulnow ultotal : Int) : internal_state × Int :=
  let dnow_sz : Nat := if dlnow > 0 then dlnow.toNat else 0
  let dtotal_sz : Nat := if dltotal > 0 then dltotal.toNat else 0
  let unow_sz : Nat := if ulnow > 0 then ulnow.toNat else 0
  let utotal_sz : Nat := if ultotal > 0 then ultotal.toNat else 0
  ({st with progress_ := update dnow_sz dtotal_sz unow_sz utotal_sz}, 0)

/-!  URL composition (`make_escaped_url`).  `curl_easy_escape` belongs to the
transport; it enters the model as the function parameter `esc`. -/

/-- The loop body of `make_escaped_url`: `acc` is the `result` string built so
far and `has` the running `has_qparams` flag. -/
def make_escaped_url_loop (esc : Str → Str) (acc : Str) (has : Bool) :
    List (Str × Str) → Str
  | [] => acc
  | (kf, vf) :: rest =>
    let k := if kf ≠ [] then kf else vf
    let v := if kf ≠ [] then vf else []
    if k = [] then make_escaped_url_loop esc acc has rest
    else
      make_escaped_url_loop esc
        (acc ++ (if has then ['&'] else ['?']) ++ esc k
             ++ (if v ≠ [] then '=' :: esc v else []))
        true rest

/-- Embeds `make_escaped_url(u, ps)`: `has_qparams` starts as
`result.find('?') != npos` on the base URL. -/
def make_escaped_url (esc : Str → Str) (u : Str) (ps : List (Str × Str)) : Str :=
  make_escaped_url_loop esc u (u.contains '?') ps

/-- Modelled from the spec's words (§8.2 of the specification), for comparison
against `make_escaped_url`: "Query parameters appended to a URL with no
existing `?` use `?k=v` for the first and `&k=v` thereafter; appended to a URL
that already has `?`, all use `&`. Empty values are emitted without `=`."
Keys and values are escaped. -/
def spec_query_suffix (esc : Str → Str) (base_has_q : Bool) :
    List (Str × Str) → Str
  | [] => []
  | (k, v) :: rest =>
    (if base_has_q then '&' else '?') :: esc k
      ++ (if v = [] then [] else '=' :: esc v)
      ++ spec_query_suffix esc true rest

/-!  The query-parameter container.  `qparams_t` is
`std::multimap<std::string, std::string, detail::case_string_compare>`:
entries are ordered by the case-sensitive lexicographic comparator, and an
insertion of an equivalent key lands at the upper bound of its equal range
(after all existing entries with that key). -/

/-- Embeds `detail::case_string_compare`: `std::lexicographical_compare` with
plain `lc < rc` on the characters. -/
def key_lt : Str → Str → Bool
  | _, [] => false
  | [], _ :: _ => true
  | a :: as, b :: bs => if a < b then true else if b < a then false else key_lt as bs

/-- One `std::multimap::emplace`: insert before the first entry whose key is
strictly greater than `k` (the upper bound of the equal range). -/
def qparams_emplace (k v : Str) : List (Str × Str) → List (Str × Str)
  | [] => [(k, v)]
  | (k₀, v₀) :: rest =>
    if key_lt k k₀ then (k, v) :: (k₀, v₀) :: rest
    else (k₀, v₀) :: qparams_emplace k v rest

/-- The contents of the builder's `qparams_` multimap after a sequence of
`request_builder::qparam(k, v)` calls, in iteration order. -/
def qparams_of (insertions : List (Str × Str)) : List (Str × Str) :=
  insertions.foldl (fun acc p => qparams_emplace p.1 p.2 acc) []

/-!  Header-list materialisation (`make_header_slist`).  A curl `slist` is a
singly-linked list of strings; `curl_slist_append` adds at the end.  Its
allocation-failure path (throwing `curly_hpp: failed to curl_slist_append`)
is not modelled. -/

/-- The loop of `make_header_slist`: `header_builder` is rebuilt per pair as
`key`, then `": " + value` when the value is non-empty and `";"` otherwise. -/
def make_header_slist_loop (result : List Str) : List (Str × Str) → List Str
  | [] => result
  | (key, value) :: rest =>
    let header_builder := key ++ (if value ≠ [] then ':' :: ' ' :: value else [';'])
    make_header_slist_loop (result ++ [header_builder]) rest

/-- Embeds `make_header_slist(headers)` on the headers map's contents in iteration
order. -/
def make_header_slist (headers : List (Str × Str)) : List Str :=
  make_header_slist_loop [] headers

/-!  The response-header callback (`internal_state::header_callback_`). -/

/-- Embeds `std::string_view::find_first_not_of`, index-tracking helper. -/
def find_first_not_of_go (set : Str) (i : Nat) : Str → Option Nat
  | [] => none
  | c :: rest =>
    if set.contains c then find_first_not_of_go set (i + 1) rest else some i

/-- Embeds `std::string_view::find_first_not_of(set)`. -/
def find_first_not_of (s set : Str) : Option Nat := find_first_not_of_go set 0 s

/-- Embeds `std::string_view::find_last_not_of`, index-tracking helper. -/
def find_last_not_of_go (set : Str) (i : Nat) (acc : Option Nat) : Str → Option Nat
  | [] => acc
  | c :: rest =>
    find_last_not_of_go set (i + 1) (if set.contains c then acc else some i) rest

/-- Embeds `std::string_view::find_last_not_of(set)`. -/
def find_last_not_of (s set : Str) : Option Nat := find_last_not_of_go set 0 none s

/-- Embeds `std::string_view::substr(pos, count)`: at most `count` characters starting
at `pos` (both clamped to the view's length). -/
def sv_substr (s : Str) (pos count : Nat) : Str := (s.drop pos).take count

/-- Embeds `std::tolower` in the default locale on an ASCII character. -/
def ascii_tolower (c : Char) : Char :=
  if 'A' ≤ c ∧ c ≤ 'Z' then Char.ofNat (c.toNat + 32) else c

/-- Key equivalence of `headers_t` (`detail::icase_string_compare` compares
lowercased characters; two keys are equivalent when neither is less). -/
def icase_eqb (a b : Str) : Bool := a.map ascii_tolower == b.map ascii_tolower

/-- One `std::map::emplace` on `headers_t`: inserts only when no equivalent
key is present; an existing entry is never overwritten.  The map's sorted
iteration order is not observed by any claim, so the new entry's position is
modelled by appending. -/
def headers_emplace (m : List (Str × Str)) (k v : Str) : List (Str × Str) :=
  if m.any (fun p => icase_eqb p.1 k) then m else m ++ [(k, v)]

/-- Embeds `internal_state::header_callback_(src, size)`: a line starting with
`"HTTP/"` (the status line of a response, checked by
`header.compare(0u, 5u, "HTTP/")`) clears the accumulated headers; otherwise
the line is split at the first `':'` (`header.find(':')`); nothing happens
when there is no `':'` or the key before it is empty; else the value after the
`':'` is reduced by `val.substr(val_f, val_l)` where
`val_f = find_first_not_of("\t ")` and `val_l = find_last_not_of("\r\n\t ")`
(empty when either search fails), and the pair is emplaced.  Returns the new
state and the callback's return value `header.size()` (the `catch` arm
returning 0 guards allocation failure only and is omitted). -/
def internal_state.header_callback (st : internal_state) (src : Str) :
    internal_state × Nat :=
  if src.take 5 = "HTTP/".data then
    ({st with response_headers_ := []}, src.length)
  else
    match src.findIdx? (· == ':') with
    | none => (st, src.length)
    | some sep_idx =>
      let key := src.take sep_idx
      if key = [] then (st, src.length)
      else
        let val0 := src.drop (sep_idx + 1)
        let val_f := find_first_not_of val0 ['\t', ' ']
        let val_l := find_last_not_of val0 ['\r', '\n', '\t', ' ']
        let val : Str :=
          match val_f, val_l with
          | some f, some l => sv_substr val0 f l
          | _, _ => []
        ({st with response_headers_ := headers_emplace st.response_headers_ key val},
         src.length)

/-!  Status-trace machinery.  The only writers of `status_` are `done`, `fail`,
`cancel` and `take` (all other members only read it under the mutex), so the
sequence of statuses a request exhibits is the sequence along an arbitrary
interleaving of these four operations. -/

/-- One invocation of a status-writing member of `internal_state`, with the
external observables it consumes. -/
inductive StateOp where
  | op_done (last_url : Option Str) (http_code : Nat) (build_throws : Bool)
  | op_fail (err : Nat)
  | op_cancel
  | op_take

/-- The state after one operation (return values discarded). -/
def apply_op (st : internal_state) : StateOp → internal_state
  | .op_done url code bt => (st.done url code bt).1
  | .op_fail err => (st.fail err).1
  | .op_cancel => st.cancel.1
  | .op_take => st.take.1

/-- The state after a sequence of operations. -/
def run_ops : internal_state → List StateOp → internal_state
  | st, [] => st
  | st, o :: os => run_ops (apply_op st o) os

/-- The statuses observed along a sequence of operations (the status before
each operation and after the last one). -/
def trace : internal_state → List StateOp → List req_status
  | st, [] => [st.status_]
  | st, o :: os => st.status_ :: trace (apply_op st o) os

/-- Terminal statuses: `done`, `failed`, `timeout`, `cancelled`. -/
def terminalb : req_status → Bool
  | .done | .failed | .timeout | .cancelled => true
  | .pending | .empty => false

/-- After the terminal status `T` has been reached, every later observation is
`T` or `empty`. -/
def tail_ok (T : req_status) : List req_status → Bool
  | [] => true
  | s :: rest => ((s == T) || (s == .empty)) && tail_ok T rest

/-- The observed status sequence matches (a prefix of)
`pending*, T, (T | empty)*` with `T` terminal. -/
def trace_ok : List req_status → Bool
  | [] => true
  | s :: rest =>
    if s == .pending then trace_ok rest else terminalb s && tail_ok s rest

/-!  Engine model for the completion-callback contract.  A submitted request
travels: submission queue (`new_handles`) → active registry
(`active_handles`) → finished (removed, callback invoked).  The steps below
are the places in `perform()` / `cancel_all_pending_requests()` that touch one
request, plus the operations a user can run on the handle at any time. -/

/-- Where the engine currently holds the request. -/
inductive Location where
  | queued
  | attached
  | finished
deriving DecidableEq, Repr

/-- One request as the engine sees it; `cb_count` counts the
`call_callback` invocations this request has received. -/
structure engine_req where
  loc : Location
  st : internal_state
  cb_count : Nat

/-- Embeds `internal_state::call_callback`: runs the user callback; a thrown
exception (`exc = some e`) is caught and stored in `callback_exception_`;
then `callbacked_` is set and `cvar_.notify_all()` runs.  Nothing escapes:
the member is `noexcept` and this model is a total function. -/
def call_callback (st : internal_state) (exc : Option String) : internal_state :=
  let st1 :=
    match exc with
    | some e => {st with callback_exception_ := some e}
    | none => st
  {st1 with callbacked_ := true}

/-- The engine steps that can touch one request.  `exc` is the exception the
user completion callback throws at that invocation (`none` when it returns
normally). -/
inductive EngineStep : engine_req → engine_req → Prop
  /-- Phase 1, already-cancelled branch: dequeued, not pending any more,
  callback invoked, never attached. -/
  | phase1_skip (r : engine_req) (exc : Option String) :
      r.loc = .queued → r.st.status_ ≠ .pending →
      EngineStep r ⟨.finished, call_callback r.st exc, r.cb_count + 1⟩
  /-- Phase 1, successful `enqueue(curlm)`: appended to the active registry. -/
  | phase1_attach (r : engine_req) :
      r.loc = .queued → r.st.status_ = .pending →
      EngineStep r ⟨.attached, r.st, r.cb_count⟩
  /-- Phase 1, `enqueue` threw: `fail(CURLE_FAILED_INIT)`, detached, callback
  invoked. -/
  | phase1_attach_fail (r : engine_req) (exc : Option String) :
      r.loc = .queued → r.st.status_ = .pending →
      EngineStep r ⟨.finished, call_callback (r.st.fail CURLE_FAILED_INIT).1 exc,
                    r.cb_count + 1⟩
  /-- Phase 2, `CURLMSG_DONE` with `CURLE_OK`: `done()`. -/
  | transfer_done (r : engine_req) (url : Option Str) (code : Nat) (bt : Bool) :
      r.loc = .attached →
      EngineStep r ⟨.attached, (r.st.done url code bt).1, r.cb_count⟩
  /-- Phase 2, `CURLMSG_DONE` with an error result: `fail(result)`. -/
  | transfer_fail (r : engine_req) (err : Nat) :
      r.loc = .attached →
      EngineStep r ⟨.attached, (r.st.fail err).1, r.cb_count⟩
  /-- Phase 2, response-idle timeout: `fail(CURLE_OPERATION_TIMEDOUT)`. -/
  | idle_timeout (r : engine_req) :
      r.loc = .attached →
      EngineStep r ⟨.attached, (r.st.fail CURLE_OPERATION_TIMEDOUT).1, r.cb_count⟩
  /-- Phase 3: a no-longer-pending request is detached, removed from the
  registry and its callback invoked. -/
  | phase3_harvest (r : engine_req) (exc : Option String) :
      r.loc = .attached → r.st.status_ ≠ .pending →
      EngineStep r ⟨.finished, call_callback r.st exc, r.cb_count + 1⟩
  /-- Embeds `cancel_all_pending_requests`, queue half: dequeue, cancel, callback. -/
  | cancel_all_queued (r : engine_req) (exc : Option String) :
      r.loc = .queued →
      EngineStep r ⟨.finished, call_callback r.st.cancel.1 exc, r.cb_count + 1⟩
  /-- Embeds `cancel_all_pending_requests`, registry half: cancel, detach, callback,
  erase. -/
  | cancel_all_active (r : engine_req) (exc : Option String) :
      r.loc = .attached →
      EngineStep r ⟨.finished, call_callback r.st.cancel.1 exc, r.cb_count + 1⟩
  /-- Embeds `request::cancel()` from any user thread, at any time. -/
  | user_cancel (r : engine_req) :
      EngineStep r ⟨r.loc, r.st.cancel.1, r.cb_count⟩
  /-- Embeds `request::take()` from any user thread, at any time. -/
  | user_take (r : engine_req) :
      EngineStep r ⟨r.loc, r.st.take.1, r.cb_count⟩

/-- States a submitted request can reach: `request_builder::send()` enqueues a
freshly constructed state, then engine and user steps interleave. -/
inductive Reachable : engine_req → Prop
  | init : Reachable ⟨.queued, init_state, 0⟩
  | step {a b : engine_req} : Reachable a → EngineStep a b → Reachable b

/-!  Behaviour of the four status-writing operations, used throughout. -/

theorem internal_state.done_not_pending (st : internal_state) (url : Option Str)
    (code : Nat) (bt : Bool) (h : st.status_ ≠ .pending) :
    st.done url code bt = (st, false, false) := by
  unfold internal_state.done
  rw [if_pos h]

theorem internal_state.fail_not_pending (st : internal_state) (err : Nat)
    (h : st.status_ ≠ .pending) : st.fail err = (st, false) := by
  unfold internal_state.fail
  rw [if_pos h]

theorem internal_state.cancel_not_pending (st : internal_state)
    (h : st.status_ ≠ .pending) : st.cancel = (st, false) := by
  unfold internal_state.cancel
  rw [if_pos h]

theorem internal_state.cancel_of_pending (st : internal_state)
    (h : st.status_ = .pending) :
    st.cancel = ({st with status_ := .cancelled,
                          error_ := "Operation cancelled".data}, true) := by
  unfold internal_state.cancel
  rw [if_neg (not_not_intro h)]

theorem internal_state.take_of_pending (st : internal_state)
    (h : st.status_ = .pending) : st.take = (st, none) := by
  unfold internal_state.take
  rw [if_pos h]

theorem internal_state.take_not_done (st : internal_state)
    (h : st.status_ ≠ .done) : st.take = (st, none) := by
  unfold internal_state.take
  by_cases hp : st.status_ = .pending
  · rw [if_pos hp]
  · rw [if_neg hp, if_pos h]

theorem internal_state.take_of_done (st : internal_state)
    (h : st.status_ = .done) :
    st.take = ({st with status_ := .empty, response_ := none}, st.response_) := by
  unfold internal_state.take
  rw [h]
  simp

/-- From `pending`, `done()` moves the status to `failed` or to `done`. -/
theorem internal_state.done_of_pending_status (st : internal_state)
    (url : Option Str) (code : Nat) (bt : Bool) (h : st.status_ = .pending) :
    (st.done url code bt).1.status_ = .failed ∨
      (st.done url code bt).1.status_ = .done := by
  unfold internal_state.done
  rw [if_neg (not_not_intro h)]
  cases url with
  | none => exact Or.inl rfl
  | some u =>
    dsimp only
    by_cases hc : code = 0
    · rw [if_pos hc]; exact Or.inl rfl
    · rw [if_neg hc]
      cases bt <;> simp

/-- From `pending`, `fail(err)` moves the status to `timeout`, `cancelled`
or `failed`. -/
theorem internal_state.fail_of_pending_status (st : internal_state) (err : Nat)
    (h : st.status_ = .pending) :
    (st.fail err).1.status_ = .timeout ∨ (st.fail err).1.status_ = .cancelled ∨
      (st.fail err).1.status_ = .failed := by
  unfold internal_state.fail
  rw [if_neg (not_not_intro h)]
  by_cases h1 : err = CURLE_OPERATION_TIMEDOUT
  · rw [if_pos h1]; exact Or.inl rfl
  · rw [if_neg h1]
    by_cases h2 : err = CURLE_READ_ERROR ∨ err = CURLE_WRITE_ERROR ∨
        err = CURLE_ABORTED_BY_CALLBACK
    · rw [if_pos h2]; exact Or.inr (Or.inl rfl)
    · rw [if_neg h2]; exact Or.inr (Or.inr rfl)

theorem terminalb_ne_pending {s : req_status} (h : terminalb s = true) :
    s ≠ .pending := by
  cases s <;> simp_all [terminalb]

theorem terminalb_ne_empty {s : req_status} (h : terminalb s = true) :
    s ≠ .empty := by
  cases s <;> simp_all [terminalb]

/-- From a terminal status, an operation leaves the status unchanged except
that `take` moves `done` to `empty`. -/
theorem apply_op_of_terminal (st : internal_state) (o : StateOp)
    (h : terminalb st.status_ = true) :
    (apply_op st o).status_ = st.status_ ∨
      (st.status_ = .done ∧ (apply_op st o).status_ = .empty) := by
  have hp := terminalb_ne_pending h
  cases o with
  | op_done url code bt =>
    rw [apply_op, st.done_not_pending url code bt hp]
    exact Or.inl rfl
  | op_fail err =>
    rw [apply_op, st.fail_not_pending err hp]
    exact Or.inl rfl
  | op_cancel =>
    rw [apply_op, st.cancel_not_pending hp]
    exact Or.inl rfl
  | op_take =>
    by_cases hd : st.status_ = .done
    · rw [apply_op, st.take_of_done hd]
      exact Or.inr ⟨hd, rfl⟩
    · rw [apply_op, st.take_not_done hd]
      exact Or.inl rfl

/-- From `empty`, every operation leaves the status `empty`. -/
theorem apply_op_of_empty (st : internal_state) (o : StateOp)
    (h : st.status_ = .empty) : (apply_op st o).status_ = .empty := by
  have hp : st.status_ ≠ .pending := by simp [h]
  have hd : st.status_ ≠ .done := by simp [h]
  cases o with
  | op_done url code bt => rw [apply_op, st.done_not_pending url code bt hp, h]
  | op_fail err => rw [apply_op, st.fail_not_pending err hp, h]
  | op_cancel => rw [apply_op, st.cancel_not_pending hp, h]
  | op_take => rw [apply_op, st.take_not_done hd, h]

/-- From `pending`, an operation either stays `pending` (a blocked `take`) or
reaches a terminal status. -/
theorem apply_op_of_pending (st : internal_state) (o : StateOp)
    (h : st.status_ = .pending) :
    (apply_op st o).status_ = .pending ∨
      terminalb (apply_op st o).status_ = true := by
  cases o with
  | op_done url code bt =>
    refine Or.inr ?_
    rcases st.done_of_pending_status url code bt h with h1 | h1 <;>
      rw [apply_op, h1] <;> rfl
  | op_fail err =>
    refine Or.inr ?_
    rcases st.fail_of_pending_status err h with h1 | h1 | h1 <;>
      rw [apply_op, h1] <;> rfl
  | op_cancel =>
    refine Or.inr ?_
    rw [apply_op, st.cancel_of_pending h]
    rfl
  | op_take =>
    rw [apply_op, st.take_of_pending h]
    exact Or.inl h

/-- After a terminal status `T` is reached, every status observed along any
further operation sequence is `T` or `empty`. -/
theorem tail_ok_trace (T : req_status) (hT : terminalb T = true) :
    ∀ (ops : List StateOp) (st : internal_state),
    st.status_ = T ∨ st.status_ = .empty → tail_ok T (trace st ops) = true := by
  intro ops
  induction ops with
  | nil =>
    intro st h
    rcases h with h | h <;> simp [trace, tail_ok, h]
  | cons o os ih =>
    intro st h
    have hnext : (apply_op st o).status_ = T ∨ (apply_op st o).status_ = .empty := by
      rcases h with h | h
      · rcases apply_op_of_terminal st o (by rw [h]; exact hT) with h1 | ⟨_, h3⟩
        · exact Or.inl (h1.trans h)
        · exact Or.inr h3
      · exact Or.inr (apply_op_of_empty st o h)
    have htail := ih (apply_op st o) hnext
    rcases h with h | h <;> simp [trace, tail_ok, h, htail]

/-- A trace started at a terminal status matches the pattern. -/
theorem trace_ok_of_terminal (ops : List StateOp) (st : internal_state)
    (h : terminalb st.status_ = true) : trace_ok (trace st ops) = true := by
  have hpend : (st.status_ == req_status.pending) = false := by
    cases hs : st.status_ <;> simp_all [terminalb]
  cases ops with
  | nil => simp [trace, trace_ok, tail_ok, hpend, h]
  | cons o os =>
    have hnext : (apply_op st o).status_ = st.status_ ∨
        (apply_op st o).status_ = .empty := by
      rcases apply_op_of_terminal st o h with h1 | ⟨_, h3⟩
      · exact Or.inl h1
      · exact Or.inr h3
    have htail := tail_ok_trace st.status_ h os (apply_op st o) hnext
    simp [trace, trace_ok, hpend, h, htail]

/-- A trace started at `pending` matches the pattern. -/
theorem trace_ok_of_pending (ops : List StateOp) :
    ∀ st : internal_state, st.status_ = .pending →
    trace_ok (trace st ops) = true := by
  induction ops with
  | nil =>
    intro st h
    simp [trace, trace_ok, h]
  | cons o os ih =>
    intro st h
    have hstep : trace_ok (trace st (o :: os)) =
        trace_ok (trace (apply_op st o) os) := by
      simp [trace, trace_ok, h]
    rw [hstep]
    rcases apply_op_of_pending st o h with h1 | h1
    · exact ih (apply_op st o) h1
    · exact trace_ok_of_terminal os (apply_op st o) h1

/-- Once `failed`, a state stays `failed` under any operation sequence. -/
theorem run_ops_status_failed : ∀ (ops : List StateOp) (st : internal_state),
    st.status_ = .failed → (run_ops st ops).status_ = .failed := by
  intro ops
  induction ops with
  | nil => exact fun st h => h
  | cons o os ih =>
    intro st h
    have ht : terminalb st.status_ = true := by rw [h]; rfl
    rcases apply_op_of_terminal st o ht with h1 | ⟨h2, _⟩
    · exact ih _ (h1.trans h)
    · rw [h] at h2; cases h2

/-- C1: the status field evolves monotonically.  `done()`, `fail(code)` and
`cancel()` each transition only from `pending` (to a terminal status: `done()`
to `done` or `failed`, `fail` to `timeout`/`cancelled`/`failed`, `cancel` to
`cancelled`) and otherwise leave the state unchanged and return false;
`take()` transitions `done` to `empty` exactly once (handing out the response
once, with a repeated `take` failing) and fails from any other settled status;
hence every observed status sequence matches `pending*, T, (T | empty)*` with
`T` terminal. -/
theorem C1_status_transitions :
    ∀ (st : internal_state) (url : Option Str) (code : Nat) (bt : Bool)
      (err : Nat) (ops : List StateOp),
    (st.status_ ≠ .pending →
      st.done url code bt = (st, false, false) ∧
      st.fail err = (st, false) ∧
      st.cancel = (st, false)) ∧
    (st.status_ = .pending →
      terminalb (st.done url code bt).1.status_ = true ∧
      terminalb (st.fail err).1.status_ = true ∧
      st.cancel.1.status_ = .cancelled) ∧
    (st.status_ = .done →
      st.take.1.status_ = .empty ∧
      st.take.2 = st.response_ ∧
      st.take.1.take.2 = none) ∧
    (st.status_ ≠ .done → st.take = (st, none)) ∧
    (st.status_ = .pending → trace_ok (trace st ops) = true) := by
  intro st url code bt err ops
  refine ⟨?_, ?_, ?_, ?_, ?_⟩
  · intro h
    exact ⟨st.done_not_pending url code bt h, st.fail_not_pending err h,
           st.cancel_not_pending h⟩
  · intro h
    refine ⟨?_, ?_, ?_⟩
    · rcases st.done_of_pending_status url code bt h with h1 | h1 <;> rw [h1] <;> rfl
    · rcases st.fail_of_pending_status err h with h1 | h1 | h1 <;> rw [h1] <;> rfl
    · rw [st.cancel_of_pending h]
  · intro h
    rw [st.take_of_done h]
    refine ⟨rfl, rfl, ?_⟩
    rw [internal_state.take_not_done _ (by simp)]
  · intro h
    exact st.take_not_done h
  · exact fun h => trace_ok_of_pending ops st h

/-- Witness for C1: a concrete trace from a fresh state matches the pattern,
and `cancel` on a state already `done` is a no-op returning false. -/
theorem C1_status_transitions_witness :
    trace_ok (trace init_state [StateOp.op_fail 28, StateOp.op_take]) = true ∧
    internal_state.cancel {init_state with status_ := req_status.done} =
      ({init_state with status_ := req_status.done}, false) := by
  constructor
  · exact (C1_status_transitions init_state none 0 false 28
      [StateOp.op_fail 28, StateOp.op_take]).2.2.2.2 rfl
  · exact ((C1_status_transitions {init_state with status_ := req_status.done}
      none 0 false 28 []).1 (by decide)).2.2

/-- C3: `fail(code)` on a pending request classifies the transport error code:
operation-timed-out yields `timeout` with message "Operation timeout";
read-error, write-error and aborted-by-callback yield `cancelled` with
message "Callback aborted"; every other code yields `failed` with the error
buffer's text, or "Unknown error" when the buffer is empty. -/
theorem C3_fail_classification :
    ∀ (st : internal_state) (err : Nat), st.status_ = .pending →
    (err = CURLE_OPERATION_TIMEDOUT →
      st.fail err = ({st with status_ := .timeout,
                              error_ := "Operation timeout".data}, true)) ∧
    ((err = CURLE_READ_ERROR ∨ err = CURLE_WRITE_ERROR ∨
        err = CURLE_ABORTED_BY_CALLBACK) →
      st.fail err = ({st with status_ := .cancelled,
                              error_ := "Callback aborted".data}, true)) ∧
    (err ≠ CURLE_OPERATION_TIMEDOUT → err ≠ CURLE_READ_ERROR →
      err ≠ CURLE_WRITE_ERROR → err ≠ CURLE_ABORTED_BY_CALLBACK →
      (st.error_buffer_ ≠ [] →
        st.fail err = ({st with status_ := .failed,
                                error_ := st.error_buffer_}, true)) ∧
      (st.error_buffer_ = [] →
        st.fail err = ({st with status_ := .failed,
                                error_ := "Unknown error".data}, true))) := by
  intro st err h
  have hguard : ¬st.status_ ≠ .pending := not_not_intro h
  refine ⟨?_, ?_, ?_⟩
  · intro h1
    unfold internal_state.fail
    rw [if_neg hguard, if_pos h1]
  · intro h1
    have hne : err ≠ CURLE_OPERATION_TIMEDOUT := by
      rcases h1 with h1 | h1 | h1 <;> rw [h1] <;> decide
    unfold internal_state.fail
    rw [if_neg hguard, if_neg hne, if_pos h1]
  · intro h1 h2 h3 h4
    have hor : ¬(err = CURLE_READ_ERROR ∨ err = CURLE_WRITE_ERROR ∨
        err = CURLE_ABORTED_BY_CALLBACK) := by
      rintro (hh | hh | hh) <;> [exact h2 hh; exact h3 hh; exact h4 hh]
    constructor
    · intro hb
      unfold internal_state.fail
      rw [if_neg hguard, if_neg h1, if_neg hor, if_pos hb]
    · intro hb
      unfold internal_state.fail
      rw [if_neg hguard, if_neg h1, if_neg hor,
          if_neg (by rw [hb]; exact fun hc => hc rfl)]

/-- Witness for C3: the three classes at concrete codes on a fresh state with
an empty error buffer, and the error-buffer case. -/
theorem C3_fail_classification_witness :
    init_state.fail 28 = ({init_state with status_ := req_status.timeout,
                                           error_ := "Operation timeout".data}, true) ∧
    init_state.fail 23 = ({init_state with status_ := req_status.cancelled,
                                           error_ := "Callback aborted".data}, true) ∧
    init_state.fail 6 = ({init_state with status_ := req_status.failed,
                                          error_ := "Unknown error".data}, true) := by
  refine ⟨?_, ?_, ?_⟩
  · exact (C3_fail_classification init_state 28 rfl).1 rfl
  · exact ((C3_fail_classification init_state 23 rfl).2.1 (Or.inr (Or.inl rfl)))
  · exact ((C3_fail_classification init_state 6 rfl).2.2 (by decide) (by decide)
      (by decide) (by decide)).2 rfl

/-- The equation of `done()` on a pending state whenever one of its three
failure conditions holds. -/
theorem internal_state.done_failure (st : internal_state) (url : Option Str)
    (code : Nat) (bt : Bool) (h : st.status_ = .pending)
    (hf : url = none ∨ code = 0 ∨ bt = true) :
    st.done url code bt = ({st with status_ := .failed}, false, true) := by
  unfold internal_state.done
  rw [if_neg (not_not_intro h)]
  rcases hf with hf | hf | hf
  · rw [hf]
  · cases url with
    | none => rfl
    | some u => dsimp only; rw [if_pos hf]
  · cases url with
    | none => rfl
    | some u =>
      dsimp only
      by_cases hc : code = 0
      · rw [if_pos hc]
      · simp [hc, hf]

/-- C9: when the transport reports a missing effective URL or a zero HTTP
response code, or building the response throws, `done()` on a pending request
sets the status to `failed` (returning false) and notifies waiters; the state
then stays `failed` under every further operation sequence and `take()` never
yields a response. -/
theorem C9_done_failure_paths :
    ∀ (st : internal_state) (url : Option Str) (code : Nat) (bt : Bool),
    st.status_ = .pending → (url = none ∨ code = 0 ∨ bt = true) →
    (st.done url code bt).1 = {st with status_ := .failed} ∧
    (st.done url code bt).2.1 = false ∧
    (st.done url code bt).2.2 = true ∧
    (∀ ops : List StateOp,
      (run_ops (st.done url code bt).1 ops).status_ = .failed ∧
      (run_ops (st.done url code bt).1 ops).take.2 = none) := by
  intro st url code bt h hf
  have heq := st.done_failure url code bt h hf
  rw [heq]
  refine ⟨rfl, rfl, rfl, ?_⟩
  intro ops
  have hrun := run_ops_status_failed ops {st with status_ := .failed} rfl
  refine ⟨hrun, ?_⟩
  rw [internal_state.take_not_done _ (by rw [hrun]; decide)]

/-- Witness for C9: a fresh state completed with a missing effective URL. -/
theorem C9_done_failure_paths_witness :
    (init_state.done none 200 false).1 = {init_state with status_ := .failed} ∧
    (run_ops (init_state.done none 200 false).1 [StateOp.op_take]).take.2 = none := by
  have h := C9_done_failure_paths init_state none 200 false rfl (Or.inl rfl)
  exact ⟨h.1, (h.2.2.2 [StateOp.op_take]).2⟩

/-- The equation of `done()` on a pending state when all three failure
conditions are absent: the response is built and published. -/
theorem internal_state.done_success (st : internal_state) (url : Str)
    (code : Nat) (h : st.status_ = .pending) (hc : code ≠ 0) :
    st.done (some url) code false =
      ({st with
          response_ := some { last_url := url, http_code := code % 65536,
                              headers := st.response_headers_,
                              content := st.response_content_ }
          response_headers_ := []
          response_content_ := []
          progress_ := 1
          status_ := .done
          error_ := [] }, true, true) := by
  unfold internal_state.done
  rw [if_neg (not_not_intro h)]
  dsimp only
  rw [if_neg hc]
  simp

/-- The default progressor's result is always within `[0, 1]`. -/
theorem default_progressor_update_bounds (dnow dtotal unow utotal : Nat) :
    0 ≤ default_progressor_update dnow dtotal unow utotal ∧
      default_progressor_update dnow dtotal unow utotal ≤ 1 := by
  unfold default_progressor_update
  exact ⟨le_min (le_max_right _ 0) zero_le_one, min_le_right _ 1⟩

/-- Counterexample to C2: the engine does not clamp the progressor's return
value before storing it.  A user progressor returning 2 makes `progress_`
equal to 2, outside `[0, 1]`. -/
theorem C2_counterexample :
    ¬ ((init_state.progress_callback (fun _ _ _ _ => 2) 0 0 0 0).1.progress_ ≤ 1) := by
  simp only [internal_state.progress_callback]
  norm_num

/-- C2 amended: the clamp to `[0, 1]` is performed by the *default* progressor
on its own return value, not by the engine, which stores whatever `update`
returns.  Hence with the default progressor the stored progress is always in
`[0, 1]`; and a successful `done()` sets `progress_` to 1. -/
theorem C2_progress_clamped_default :
    (∀ dnow dtotal unow utotal : Nat,
      0 ≤ default_progressor_update dnow dtotal unow utotal ∧
      default_progressor_update dnow dtotal unow utotal ≤ 1) ∧
    (∀ (st : internal_state) (dlnow dltotal ulnow ultotal : Int),
      0 ≤ (st.progress_callback default_progressor_update
            dlnow dltotal ulnow ultotal).1.progress_ ∧
      (st.progress_callback default_progressor_update
            dlnow dltotal ulnow ultotal).1.progress_ ≤ 1) ∧
    (∀ (st : internal_state) (url : Str) (code : Nat),
      st.status_ = .pending → code ≠ 0 →
      (st.done (some url) code false).1.status_ = .done ∧
      (st.done (some url) code false).1.progress_ = 1) := by
  refine ⟨default_progressor_update_bounds, ?_, ?_⟩
  · intro st dlnow dltotal ulnow ultotal
    simp only [internal_state.progress_callback]
    exact default_progressor_update_bounds _ _ _ _
  · intro st url code h hc
    rw [st.done_success url code h hc]
    exact ⟨rfl, rfl⟩

/-- Witness for C2 (amended): concrete bounds and a concrete successful
completion. -/
theorem C2_progress_clamped_default_witness :
    (0 ≤ default_progressor_update 1 2 1 2 ∧
      default_progressor_update 1 2 1 2 ≤ 1) ∧
    (init_state.done (some ("u".data)) 200 false).1.progress_ = 1 := by
  refine ⟨C2_progress_clamped_default.1 1 2 1 2, ?_⟩
  exact (C2_progress_clamped_default.2.2 init_state ("u".data) 200 rfl
    (by decide)).2

/-- The loop of `make_escaped_url` renders exactly the spec's query suffix as
long as every key is non-empty. -/
theorem make_escaped_url_loop_spec (esc : Str → Str) :
    ∀ (ps : List (Str × Str)) (acc : Str) (has : Bool),
    (∀ p ∈ ps, p.1 ≠ []) →
    make_escaped_url_loop esc acc has ps = acc ++ spec_query_suffix esc has ps := by
  intro ps
  induction ps with
  | nil =>
    intro acc has _
    simp [make_escaped_url_loop, spec_query_suffix]
  | cons p rest ih =>
    intro acc has hall
    obtain ⟨kf, vf⟩ := p
    have hk : kf ≠ [] := hall (kf, vf) (List.mem_cons_self _ _)
    have hrest : ∀ p ∈ rest, p.1 ≠ [] :=
      fun p hp => hall p (List.mem_cons_of_mem _ hp)
    simp only [make_escaped_url_loop, spec_query_suffix, if_pos hk, if_neg hk]
    rw [ih _ true hrest]
    by_cases hv : vf = [] <;> cases has <;>
      simp [hv, List.append_assoc]

/-- C6: `make_escaped_url` appends every (non-empty-key) parameter with
escaped key and value; the first appended parameter uses `?` when the base
URL contains no `?` and `&` otherwise, all later ones use `&`; parameters
with empty value are emitted as the escaped key alone, with no `=` (all of
which is expressed by `spec_query_suffix`, written from the spec text). -/
theorem C6_url_composition :
    ∀ (esc : Str → Str) (u : Str) (ps : List (Str × Str)),
    (∀ p ∈ ps, p.1 ≠ []) →
    make_escaped_url esc u ps = u ++ spec_query_suffix esc (u.contains '?') ps := by
  intro esc u ps h
  exact make_escaped_url_loop_spec esc ps u (u.contains '?') h

/-- Witness for C6: a two-parameter list (one with empty value) appended to a
base URL without `?`, and one appended to a base URL with `?`. -/
theorem C6_url_composition_witness :
    make_escaped_url id ("http://x".data)
        [("a".data, "b".data), ("c".data, [])] =
      "http://x".data ++ spec_query_suffix id (("http://x".data).contains '?')
        [("a".data, "b".data), ("c".data, [])] ∧
    make_escaped_url id ("http://x?z".data) [("a".data, "b".data)] =
      "http://x?z".data ++ spec_query_suffix id (("http://x?z".data).contains '?')
        [("a".data, "b".data)] := by
  constructor
  · exact C6_url_composition id ("http://x".data) _ (by decide)
  · exact C6_url_composition id ("http://x?z".data) _ (by decide)

/-- The loop treats the pair `([], v)` exactly like the pair `(v, [])`. -/
theorem make_escaped_url_loop_empty_key (esc : Str → Str) (v : Str) :
    ∀ (ps₁ : List (Str × Str)) (acc : Str) (has : Bool) (ps₂ : List (Str × Str)),
    make_escaped_url_loop esc acc has (ps₁ ++ ([], v) :: ps₂) =
      make_escaped_url_loop esc acc has (ps₁ ++ (v, []) :: ps₂) := by
  intro ps₁
  induction ps₁ with
  | nil =>
    intro acc has ps₂
    by_cases hv : v = []
    · simp [make_escaped_url_loop, hv]
    · simp [make_escaped_url_loop, hv]
  | cons p rest ih =>
    intro acc has ps₂
    obtain ⟨kf, vf⟩ := p
    simp only [List.cons_append, make_escaped_url_loop]
    repeat' split
    all_goals exact ih _ _ ps₂

/-- The loop skips the pair `([], [])` entirely. -/
theorem make_escaped_url_loop_skip (esc : Str → Str) :
    ∀ (ps₁ : List (Str × Str)) (acc : Str) (has : Bool) (ps₂ : List (Str × Str)),
    make_escaped_url_loop esc acc has (ps₁ ++ ([], []) :: ps₂) =
      make_escaped_url_loop esc acc has (ps₁ ++ ps₂) := by
  intro ps₁
  induction ps₁ with
  | nil =>
    intro acc has ps₂
    simp [make_escaped_url_loop]
  | cons p rest ih =>
    intro acc has ps₂
    obtain ⟨kf, vf⟩ := p
    simp only [List.cons_append, make_escaped_url_loop]
    repeat' split
    all_goals exact ih _ _ ps₂

/-- C10: a query parameter with empty key and non-empty value `v` is
serialized exactly like the parameter `(v, "")` — the escaped `v` lands in
the key position with no `=` — and a parameter with both components empty is
skipped entirely. -/
theorem C10_empty_key_params :
    (∀ (esc : Str → Str) (u v : Str) (ps₁ ps₂ : List (Str × Str)),
      make_escaped_url esc u (ps₁ ++ ([], v) :: ps₂) =
        make_escaped_url esc u (ps₁ ++ (v, []) :: ps₂)) ∧
    (∀ (esc : Str → Str) (u : Str) (ps₁ ps₂ : List (Str × Str)),
      make_escaped_url esc u (ps₁ ++ ([], []) :: ps₂) =
        make_escaped_url esc u (ps₁ ++ ps₂)) ∧
    (∀ (esc : Str → Str) (u v : Str), v ≠ [] → u.contains '?' = false →
      make_escaped_url esc u [([], v)] = u ++ '?' :: esc v) := by
  refine ⟨?_, ?_, ?_⟩
  · intro esc u v ps₁ ps₂
    exact make_escaped_url_loop_empty_key esc v ps₁ u (u.contains '?') ps₂
  · intro esc u ps₁ ps₂
    exact make_escaped_url_loop_skip esc ps₁ u (u.contains '?') ps₂
  · intro esc u v hv hq
    have h1 := make_escaped_url_loop_empty_key esc v [] u (u.contains '?') []
    unfold make_escaped_url
    simp only [List.nil_append] at h1
    rw [h1, make_escaped_url_loop_spec esc [(v, [])] u (u.contains '?')
      (by intro p hp; simp at hp; rw [hp]; exact hv), hq]
    simp [spec_query_suffix]

/-- Witness for C10: concrete empty-key pairs. -/
theorem C10_empty_key_params_witness :
    make_escaped_url id ("u".data) [([], "v".data)] =
      make_escaped_url id ("u".data) [("v".data, [])] ∧
    make_escaped_url id ("u".data) [([], "v".data)] = "u".data ++ '?' :: "v".data := by
  constructor
  · exact C10_empty_key_params.1 id ("u".data) ("v".data) [] []
  · exact C10_empty_key_params.2.2 id ("u".data) ("v".data) (by decide) (by decide)

/-!  Order facts about the multimap comparator. -/

theorem key_lt_irrefl : ∀ a : Str, key_lt a a = false := by
  intro a
  induction a with
  | nil => rfl
  | cons c cs ih => simp [key_lt, ih]

theorem key_lt_asymm : ∀ a b : Str, key_lt a b = true → key_lt b a = false := by
  intro a
  induction a with
  | nil =>
    intro b h
    cases b with
    | nil => cases h
    | cons d ds => rfl
  | cons c cs ih =>
    intro b h
    cases b with
    | nil => cases h
    | cons d ds =>
      simp only [key_lt] at h ⊢
      by_cases h1 : c < d
      · rw [if_neg (lt_asymm h1), if_pos h1]
      · by_cases h2 : d < c
        · rw [if_neg h1, if_pos h2] at h
          cases h
        · rw [if_neg h1, if_neg h2] at h
          rw [if_neg h2, if_neg h1]
          exact ih ds h

theorem key_lt_trans : ∀ a b c : Str,
    key_lt a b = true → key_lt b c = true → key_lt a c = true := by
  intro a
  induction a with
  | nil =>
    intro b c hab hbc
    cases c with
    | nil =>
      cases b with
      | nil => cases hab
      | cons d ds => cases hbc
    | cons e es => rfl
  | cons x xs ih =>
    intro b c hab hbc
    cases b with
    | nil => cases hab
    | cons d ds =>
      cases c with
      | nil => cases hbc
      | cons e es =>
        simp only [key_lt] at hab hbc ⊢
        by_cases h1 : x < d
        · by_cases h2 : d < e
          · rw [if_pos (lt_trans h1 h2)]
          · by_cases h3 : e < d
            · rw [if_neg h2, if_pos h3] at hbc
              cases hbc
            · have hde : d = e := le_antisymm (not_lt.mp h3) (not_lt.mp h2)
              rw [if_pos (hde ▸ h1)]
        · by_cases h1' : d < x
          · rw [if_neg h1, if_pos h1'] at hab
            cases hab
          · have hxd : x = d := le_antisymm (not_lt.mp h1') (not_lt.mp h1)
            rw [if_neg h1, if_neg h1'] at hab
            by_cases h2 : d < e
            · rw [if_pos (hxd ▸ h2)]
            · by_cases h3 : e < d
              · rw [if_neg h2, if_pos h3] at hbc
                cases hbc
              · have hde : d = e := le_antisymm (not_lt.mp h3) (not_lt.mp h2)
                rw [if_neg h2, if_neg h3] at hbc
                have hxe : x = e := hxd.trans hde
                rw [hxe]
                simp only [lt_irrefl, if_neg (lt_irrefl e), if_false]
                exact ih ds es hab hbc

/-- Everything in an upper-bound insertion comes from the old list or is the
new pair. -/
theorem qparams_emplace_mem (k v : Str) :
    ∀ (l : List (Str × Str)) (x : Str × Str),
    x ∈ qparams_emplace k v l → x ∈ l ∨ x = (k, v) := by
  intro l
  induction l with
  | nil =>
    intro x hx
    simp only [qparams_emplace, List.mem_singleton] at hx
    exact Or.inr hx
  | cons p rest ih =>
    intro x hx
    obtain ⟨k₀, v₀⟩ := p
    simp only [qparams_emplace] at hx
    split at hx
    · rcases List.mem_cons.mp hx with h | h
      · exact Or.inr h
      · exact Or.inl h
    · rcases List.mem_cons.mp hx with h | h
      · exact Or.inl (h ▸ List.mem_cons_self _ _)
      · rcases ih x h with h' | h'
        · exact Or.inl (List.mem_cons_of_mem _ h')
        · exact Or.inr h'

/-- Upper-bound insertion keeps the list sorted by the comparator. -/
theorem qparams_emplace_sorted (k v : Str) :
    ∀ l : List (Str × Str), l.Pairwise (fun a b => key_lt b.1 a.1 = false) →
    (qparams_emplace k v l).Pairwise (fun a b => key_lt b.1 a.1 = false) := by
  intro l
  induction l with
  | nil =>
    intro _
    simp [qparams_emplace]
  | cons p rest ih =>
    intro hp
    obtain ⟨k₀, v₀⟩ := p
    rw [List.pairwise_cons] at hp
    obtain ⟨hhead, htail⟩ := hp
    simp only [qparams_emplace]
    split
    · rename_i hlt
      rw [List.pairwise_cons]
      refine ⟨?_, ?_⟩
      · intro x hx
        rcases List.mem_cons.mp hx with h | h
        · rw [h]
          exact key_lt_asymm _ _ hlt
        · cases hxk : key_lt x.1 k with
          | false => rfl
          | true =>
            have h2 := key_lt_trans _ _ _ hxk hlt
            rw [hhead x h] at h2
            cases h2
      · rw [List.pairwise_cons]
        exact ⟨hhead, htail⟩
    · rename_i hnlt
      rw [List.pairwise_cons]
      refine ⟨?_, ih htail⟩
      intro x hx
      rcases qparams_emplace_mem k v rest x hx with h | h
      · exact hhead x h
      · rw [h]
        exact Bool.eq_false_iff.mpr hnlt

/-- Upper-bound insertion into a sorted list appends the new pair at the end
of its key's equivalence class. -/
theorem qparams_emplace_filter (k v K : Str) :
    ∀ l : List (Str × Str), l.Pairwise (fun a b => key_lt b.1 a.1 = false) →
    (qparams_emplace k v l).filter (fun p => p.1 == K) =
      l.filter (fun p => p.1 == K) ++ (if k == K then [(k, v)] else []) := by
  intro l
  induction l with
  | nil =>
    intro _
    cases hkK : (k == K : Bool) <;>
      simp [qparams_emplace, List.filter_cons, hkK]
  | cons p rest ih =>
    intro hp
    obtain ⟨k₀, v₀⟩ := p
    rw [List.pairwise_cons] at hp
    obtain ⟨hhead, htail⟩ := hp
    simp only [qparams_emplace]
    split
    · rename_i hlt
      by_cases hkK : (k == K : Bool) = true
      · have hkeq : k = K := beq_iff_eq.mp hkK
        have hnone : ∀ x ∈ (k₀, v₀) :: rest, ((fun p => p.1 == K) x) ≠ true := by
          intro x hx
          rcases List.mem_cons.mp hx with h | h
          · rw [h]
            intro hbe
            have hk0 : k₀ = K := beq_iff_eq.mp hbe
            rw [← hkeq] at hk0
            rw [hk0, key_lt_irrefl] at hlt
            cases hlt
          · intro hbe
            have hxK : x.1 = K := beq_iff_eq.mp hbe
            have hx0 := hhead x h
            rw [hxK, ← hkeq, hlt] at hx0
            cases hx0
        have hfil : ((k₀, v₀) :: rest).filter (fun p => p.1 == K) = [] :=
          List.filter_eq_nil_iff.mpr hnone
        rw [List.filter_cons, hfil]
        simp [hkK]
      · have hkK' : (k == K : Bool) = false := Bool.eq_false_iff.mpr hkK
        rw [List.filter_cons]
        simp [hkK']
    · rename_i hnlt
      simp only [List.filter_cons]
      cases h0 : ((k₀, v₀).1 == K : Bool) <;>
        simp [h0, ih htail]

/-- Upper-bound insertion adds exactly one entry. -/
theorem qparams_emplace_length (k v : Str) :
    ∀ l : List (Str × Str), (qparams_emplace k v l).length = l.length + 1 := by
  intro l
  induction l with
  | nil => rfl
  | cons p rest ih =>
    obtain ⟨k₀, v₀⟩ := p
    simp only [qparams_emplace]
    split <;> simp [ih]

theorem qparams_of_loop_sorted : ∀ (ins acc : List (Str × Str)),
    acc.Pairwise (fun a b => key_lt b.1 a.1 = false) →
    (List.foldl (fun acc p => qparams_emplace p.1 p.2 acc) acc ins).Pairwise
      (fun a b => key_lt b.1 a.1 = false) := by
  intro ins
  induction ins with
  | nil => exact fun acc h => h
  | cons p rest ih =>
    intro acc h
    exact ih _ (qparams_emplace_sorted _ _ _ h)

theorem qparams_of_loop_filter (K : Str) : ∀ (ins acc : List (Str × Str)),
    acc.Pairwise (fun a b => key_lt b.1 a.1 = false) →
    (List.foldl (fun acc p => qparams_emplace p.1 p.2 acc) acc ins).filter
        (fun p => p.1 == K) =
      acc.filter (fun p => p.1 == K) ++ ins.filter (fun p => p.1 == K) := by
  intro ins
  induction ins with
  | nil =>
    intro acc _
    simp
  | cons p rest ih =>
    intro acc h
    have hstep := qparams_emplace_filter p.1 p.2 K acc h
    simp only [List.foldl_cons]
    rw [ih _ (qparams_emplace_sorted _ _ _ h), hstep, List.filter_cons]
    cases h0 : (p.1 == K : Bool) <;> simp [h0, List.append_assoc]

theorem qparams_of_loop_length : ∀ (ins acc : List (Str × Str)),
    (List.foldl (fun acc p => qparams_emplace p.1 p.2 acc) acc ins).length =
      acc.length + ins.length := by
  intro ins
  induction ins with
  | nil => intro acc; simp
  | cons p rest ih =>
    intro acc
    simp only [List.foldl_cons]
    rw [ih, qparams_emplace_length]
    simp [Nat.add_assoc, Nat.add_comm 1]

/-- Counterexample to C7: the builder's `qparams_` is a `std::multimap`
ordered by the comparator, not by insertion order.  Inserting key "b" before
key "a" stores (and therefore emits) "a" first. -/
theorem C7_counterexample :
    qparams_of [("b".data, "1".data), ("a".data, "2".data)] ≠
      [("b".data, "1".data), ("a".data, "2".data)] ∧
    qparams_of [("b".data, "1".data), ("a".data, "2".data)] =
      [("a".data, "2".data), ("b".data, "1".data)] := by
  constructor <;> decide

/-- C7 amended: the stored query-parameter list is ordered by the multimap's
case-sensitive lexicographic key comparator; duplicate keys are allowed (no
insertion is dropped or merged), and among entries with the same key the
insertion order is preserved (each new duplicate lands at the upper bound of
its equal range); `make_escaped_url` then emits the parameters in this stored
order. -/
theorem C7_qparams_sorted_stable :
    ∀ insertions : List (Str × Str),
    (qparams_of insertions).Pairwise (fun a b => key_lt b.1 a.1 = false) ∧
    (qparams_of insertions).length = insertions.length ∧
    (∀ K : Str, (qparams_of insertions).filter (fun p => p.1 == K) =
      insertions.filter (fun p => p.1 == K)) := by
  intro ins
  refine ⟨qparams_of_loop_sorted ins [] List.Pairwise.nil, ?_, ?_⟩
  · rw [qparams_of, qparams_of_loop_length]
    simp
  · intro K
    have h := qparams_of_loop_filter K ins [] List.Pairwise.nil
    simpa [qparams_of] using h

/-- The slist loop appends, to the already-built part, one rendered entry per
remaining pair. -/
theorem make_header_slist_loop_map : ∀ (hs : List (Str × Str)) (result : List Str),
    make_header_slist_loop result hs =
      result ++ hs.map (fun p => p.1 ++ (if p.2 ≠ [] then ':' :: ' ' :: p.2
                                         else [';'])) := by
  intro hs
  induction hs with
  | nil =>
    intro result
    simp [make_header_slist_loop]
  | cons p rest ih =>
    intro result
    obtain ⟨k, v⟩ := p
    simp only [make_header_slist_loop, List.map_cons]
    rw [ih]
    simp [List.append_assoc]

/-- Counterexample to C8: a pair with an empty key still produces an entry
(here `": v"`), contradicting "pairs with an empty key produce no entry". -/
theorem C8_counterexample :
    make_header_slist [(([] : Str), "v".data)] = [(": v").data] ∧
    make_header_slist [(([] : Str), "v".data)] ≠ [] := by
  constructor <;> decide

/-- C8 amended: the materialised list contains exactly one entry per pair of
the headers map — `"<key>: <value>"` when the value is non-empty and
`"<key>;"` when it is empty — with no empty-key filtering whatsoever. -/
theorem C8_header_slist :
    ∀ headers : List (Str × Str),
    make_header_slist headers =
      headers.map (fun p => p.1 ++ (if p.2 ≠ [] then ':' :: ' ' :: p.2
                                    else [';'])) := by
  intro headers
  have h := make_header_slist_loop_map headers []
  simpa [make_header_slist] using h

/-- C5 (code bug): the header-value trim in `header_callback_` computes
`val.substr(val_f, val_l)`, passing the index `val_l` of the last
non-trailing-junk character as the *count*; the result is correctly trimmed
only when the value has exactly one leading tab/space (the common
`"Key: value"` shape).  With no leading whitespace the last character is
dropped; with two the trailing `"\r"` survives. -/
theorem C5_header_value_trim_bug :
    (init_state.header_callback ("Key:value\r\n".data)).1.response_headers_ =
      [("Key".data, "valu".data)] ∧
    (init_state.header_callback ("Key: value\r\n".data)).1.response_headers_ =
      [("Key".data, "value".data)] ∧
    (init_state.header_callback ("Key:  value\r\n".data)).1.response_headers_ =
      [("Key".data, "value\r".data)] := by
  refine ⟨?_, ?_, ?_⟩ <;> decide

/-!  Facts feeding the completion-callback contract. -/

theorem internal_state.done_preserves_cb (st : internal_state) (url : Option Str)
    (code : Nat) (bt : Bool) :
    (st.done url code bt).1.callbacked_ = st.callbacked_ ∧
    (st.done url code bt).1.callback_exception_ = st.callback_exception_ := by
  refine ⟨?_, ?_⟩ <;>
    · unfold internal_state.done
      repeat' split
      all_goals rfl

theorem internal_state.fail_preserves_cb (st : internal_state) (err : Nat) :
    (st.fail err).1.callbacked_ = st.callbacked_ ∧
    (st.fail err).1.callback_exception_ = st.callback_exception_ := by
  refine ⟨?_, ?_⟩ <;>
    · unfold internal_state.fail
      repeat' split
      all_goals rfl

theorem internal_state.cancel_preserves_cb (st : internal_state) :
    st.cancel.1.callbacked_ = st.callbacked_ ∧
    st.cancel.1.callback_exception_ = st.callback_exception_ := by
  refine ⟨?_, ?_⟩ <;>
    · unfold internal_state.cancel
      repeat' split
      all_goals rfl

theorem internal_state.take_preserves_cb (st : internal_state) :
    st.take.1.callbacked_ = st.callbacked_ ∧
    st.take.1.callback_exception_ = st.callback_exception_ := by
  refine ⟨?_, ?_⟩ <;>
    · unfold internal_state.take
      repeat' split
      all_goals rfl

theorem internal_state.done_status_ne_pending (st : internal_state)
    (url : Option Str) (code : Nat) (bt : Bool) :
    (st.done url code bt).1.status_ ≠ .pending := by
  by_cases h : st.status_ = .pending
  · rcases st.done_of_pending_status url code bt h with h1 | h1 <;> rw [h1] <;> decide
  · rw [st.done_not_pending url code bt h]
    exact h

theorem internal_state.fail_status_ne_pending (st : internal_state) (err : Nat) :
    (st.fail err).1.status_ ≠ .pending := by
  by_cases h : st.status_ = .pending
  · rcases st.fail_of_pending_status err h with h1 | h1 | h1 <;> rw [h1] <;> decide
  · rw [st.fail_not_pending err h]
    exact h

theorem internal_state.cancel_status_ne_pending (st : internal_state) :
    st.cancel.1.status_ ≠ .pending := by
  by_cases h : st.status_ = .pending
  · rw [st.cancel_of_pending h]
    simp
  · rw [st.cancel_not_pending h]
    exact h

theorem internal_state.take_ne_pending (st : internal_state)
    (h : st.status_ ≠ .pending) : st.take.1.status_ ≠ .pending := by
  by_cases hd : st.status_ = .done
  · rw [st.take_of_done hd]
    simp
  · rw [st.take_not_done hd]
    exact h

theorem call_callback_callbacked (st : internal_state) (exc : Option String) :
    (call_callback st exc).callbacked_ = true := by
  unfold call_callback
  cases exc <;> rfl

theorem call_callback_status (st : internal_state) (exc : Option String) :
    (call_callback st exc).status_ = st.status_ := by
  unfold call_callback
  cases exc <;> rfl

/-- The invariant behind the completion-callback contract: while a request is
queued or attached its callback has not run; once it is finished the callback
has run exactly once; and a run callback implies a settled status. -/
def cb_inv (r : engine_req) : Prop :=
  (r.loc = .finished → r.cb_count = 1 ∧ r.st.callbacked_ = true) ∧
  (r.loc ≠ .finished → r.cb_count = 0 ∧ r.st.callbacked_ = false) ∧
  (r.st.callbacked_ = true → r.st.status_ ≠ .pending)

theorem cb_inv_of_reachable : ∀ r : engine_req, Reachable r → cb_inv r := by
  intro r h
  induction h with
  | init =>
    refine ⟨fun hf => absurd hf (by decide), fun _ => ⟨rfl, rfl⟩,
            fun hcb => absurd hcb (by decide)⟩
  | @step a b ha hs ih =>
    obtain ⟨ih1, ih2, ih3⟩ := ih
    cases hs with
    | phase1_skip exc h1 h2 =>
      have hc0 := (ih2 (by rw [h1]; decide)).1
      refine ⟨fun _ => ⟨by rw [hc0], call_callback_callbacked _ _⟩,
              fun hne => absurd rfl hne, fun _ => ?_⟩
      rw [call_callback_status]
      exact h2
    | phase1_attach h1 h2 =>
      exact ⟨fun hf => absurd hf (by simp), fun _ => ih2 (by rw [h1]; decide), ih3⟩
    | phase1_attach_fail exc h1 h2 =>
      have hc0 := (ih2 (by rw [h1]; decide)).1
      refine ⟨fun _ => ⟨by rw [hc0], call_callback_callbacked _ _⟩,
              fun hne => absurd rfl hne, fun _ => ?_⟩
      rw [call_callback_status]
      exact internal_state.fail_status_ne_pending a.st CURLE_FAILED_INIT
    | transfer_done url code bt h1 =>
      have h2' := ih2 (by rw [h1]; decide)
      refine ⟨fun hf => absurd hf (by simp), fun _ => ⟨h2'.1, ?_⟩,
              fun _ => internal_state.done_status_ne_pending a.st url code bt⟩
      rw [(internal_state.done_preserves_cb a.st url code bt).1]
      exact h2'.2
    | transfer_fail err h1 =>
      have h2' := ih2 (by rw [h1]; decide)
      refine ⟨fun hf => absurd hf (by simp), fun _ => ⟨h2'.1, ?_⟩,
              fun _ => internal_state.fail_status_ne_pending a.st err⟩
      rw [(internal_state.fail_preserves_cb a.st err).1]
      exact h2'.2
    | idle_timeout h1 =>
      have h2' := ih2 (by rw [h1]; decide)
      refine ⟨fun hf => absurd hf (by simp), fun _ => ⟨h2'.1, ?_⟩,
              fun _ => internal_state.fail_status_ne_pending a.st _⟩
      rw [(internal_state.fail_preserves_cb a.st _).1]
      exact h2'.2
    | phase3_harvest exc h1 h2 =>
      have hc0 := (ih2 (by rw [h1]; decide)).1
      refine ⟨fun _ => ⟨by rw [hc0], call_callback_callbacked _ _⟩,
              fun hne => absurd rfl hne, fun _ => ?_⟩
      rw [call_callback_status]
      exact h2
    | cancel_all_queued exc h1 =>
      have hc0 := (ih2 (by rw [h1]; decide)).1
      refine ⟨fun _ => ⟨by rw [hc0], call_callback_callbacked _ _⟩,
              fun hne => absurd rfl hne, fun _ => ?_⟩
      rw [call_callback_status]
      exact internal_state.cancel_status_ne_pending a.st
    | cancel_all_active exc h1 =>
      have hc0 := (ih2 (by rw [h1]; decide)).1
      refine ⟨fun _ => ⟨by rw [hc0], call_callback_callbacked _ _⟩,
              fun hne => absurd rfl hne, fun _ => ?_⟩
      rw [call_callback_status]
      exact internal_state.cancel_status_ne_pending a.st
    | user_cancel =>
      refine ⟨fun hf => ⟨(ih1 hf).1, ?_⟩, fun hne => ⟨(ih2 hne).1, ?_⟩,
              fun _ => internal_state.cancel_status_ne_pending a.st⟩
      · rw [(internal_state.cancel_preserves_cb a.st).1]
        exact (ih1 hf).2
      · rw [(internal_state.cancel_preserves_cb a.st).1]
        exact (ih2 hne).2
    | user_take =>
      refine ⟨fun hf => ⟨(ih1 hf).1, ?_⟩, fun hne => ⟨(ih2 hne).1, ?_⟩,
              fun hcb => ?_⟩
      · rw [(internal_state.take_preserves_cb a.st).1]
        exact (ih1 hf).2
      · rw [(internal_state.take_preserves_cb a.st).1]
        exact (ih2 hne).2
      · have hcb2 : a.st.callbacked_ = true := by
          rw [← (internal_state.take_preserves_cb a.st).1]
          exact hcb
        exact internal_state.take_ne_pending a.st (ih3 hcb2)

/-- C4: in every reachable engine configuration the completion callback has
run at most once (exactly once when the engine has finished with the request),
it runs only after the status has left `pending`, and `call_callback` sets
`callbacked_`, keeps the status, captures a thrown exception into
`callback_exception_` and (being total) never lets it propagate. -/
theorem C4_callback_contract :
    (∀ r : engine_req, Reachable r →
      r.cb_count ≤ 1 ∧
      (r.st.callbacked_ = true ↔ r.cb_count = 1) ∧
      (r.st.callbacked_ = true → r.st.status_ ≠ .pending) ∧
      (r.loc = .finished → r.cb_count = 1)) ∧
    (∀ (st : internal_state) (exc : Option String),
      (call_callback st exc).callbacked_ = true ∧
      (call_callback st exc).status_ = st.status_ ∧
      ∀ e : String, exc = some e →
        (call_callback st exc).callback_exception_ = some e) := by
  constructor
  · intro r hr
    obtain ⟨i1, i2, i3⟩ := cb_inv_of_reachable r hr
    by_cases hf : r.loc = .finished
    · obtain ⟨hc, hcb⟩ := i1 hf
      exact ⟨by rw [hc], ⟨fun _ => hc, fun _ => hcb⟩, i3, fun _ => hc⟩
    · obtain ⟨hc, hcb⟩ := i2 hf
      refine ⟨by rw [hc]; exact Nat.zero_le 1, ⟨?_, ?_⟩, i3, fun h => absurd h hf⟩
      · intro h
        rw [hcb] at h
        cases h
      · intro h
        rw [hc] at h
        cases h
  · intro st exc
    refine ⟨call_callback_callbacked st exc, call_callback_status st exc, ?_⟩
    intro e he
    rw [he]
    rfl

/-- Witness for C4: the freshly submitted request, and a concrete thrown
callback exception being captured. -/
theorem C4_callback_contract_witness :
    ((⟨Location.queued, init_state, 0⟩ : engine_req).st.callbacked_ = true ↔
      (⟨Location.queued, init_state, 0⟩ : engine_req).cb_count = 1) ∧
    (call_callback init_state (some "X")).callback_exception_ = some "X" := by
  constructor
  · exact (C4_callback_contract.1 ⟨Location.queued, init_state, 0⟩
      Reachable.init).2.1
  · exact (C4_callback_contract.2 init_state (some "X")).2.2 "X" rfl

end Curly
